import Mathlib

/-!
Verification of `listcontents.py`, a directory-tree walker that prints the
contents of matched files.  The Python source is shallowly embedded below:

* paths are Lean `String`s with `/` as separator (the tool targets POSIX, where
  `os.sep = "/"`, so the `path.replace(os.sep, "/")` normalisations in the
  source are the identity and are not repeated here);
* the filesystem seen by one run is a finite map from start-relative component
  paths to nodes (`FS`); a directory node records whether listing its entries
  fails (`os.scandir` raising inside `os.walk`);
* per-file dynamic state (existence and readability at processing time, the
  bytes served to the binary sniff, the text read, the string returned by the
  external `pdftotext` collaborator) is bundled in `FileData`;
* compiled gitignore matchers are abstract predicates that may raise,
  `String → Except String Bool`, exactly the interface `parse_gitignore`
  exposes to this program;
* `print`-based output is modelled as the list of strings passed to `print`,
  and `logger.warning` calls as a list of warning strings.

String primitives (`startswith`, `split`, `fnmatch.fnmatch`, ...) are
re-implemented over `String.data` so that every definition evaluates inside
the kernel.
-/

/-- Code-point comparison of strings, as Python compares `str` values:
lexicographic on the character sequences. -/
def charListLe : List Char → List Char → Bool
  | [], _ => true
  | _ :: _, [] => false
  | a :: as, b :: bs =>
    if a < b then true
    else if b < a then false
    else charListLe as bs

/-- Models Python `s.startswith(pre)`. -/
def strStartsWith (s pre : String) : Bool := pre.data.isPrefixOf s.data

/-- Models Python `s.endswith(suf)`. -/
def strEndsWith (s suf : String) : Bool := suf.data.isSuffixOf s.data

/-- Contiguous-occurrence test on character lists, used for Python
`sub in s`. -/
def listIsInfix (sub : List Char) : List Char → Bool
  | [] => sub.isPrefixOf []
  | c :: t => sub.isPrefixOf (c :: t) || listIsInfix sub t

/-- Models Python `sub in s` (substring containment). -/
def strContainsSub (s sub : String) : Bool := listIsInfix sub.data s.data

/-- Splits a character list at `/`, keeping empty groups, as Python
`s.split("/")` does. -/
def splitCharGroups : List Char → List (List Char)
  | [] => [[]]
  | c :: rest =>
    if c == '/' then [] :: splitCharGroups rest
    else
      match splitCharGroups rest with
      | [] => [[c]]
      | g :: gs => (c :: g) :: gs

/-- Models Python `s.split("/")`. -/
def splitSlash (s : String) : List String := (splitCharGroups s.data).map (fun g => ⟨g⟩)

/-- Models Python `s.rstrip("/")`: removes every trailing slash. -/
def rstripSlash (s : String) : String :=
  ⟨(s.data.reverse.dropWhile (fun c => c == '/')).reverse⟩

/-- Models `os.path.basename` on slash-separated paths: the part after the
last separator. -/
def basenameStr (p : String) : String := (splitSlash p).getLastD ""

/-- Joins start-relative path components with `/`. -/
def joinRel : List String → String
  | [] => ""
  | [p] => p
  | p :: rest => p ++ "/" ++ joinRel rest

/-- Models the chain of `os.path.join(root, name)` calls that builds the
absolute path of an entry `parts` below the start directory `base`. -/
def joinUnder (base : String) (parts : List String) : String :=
  parts.foldl (fun acc n => acc ++ "/" ++ n) base

/-- Models `os.path.relpath(p, base)` in the situations this program creates:
`p` is `base` extended by components (then the prefix and the separator are
stripped).  On any other input the program-level fallback (`except ValueError`)
returns the path unchanged, which the `else` branch mirrors. -/
def relpathStr (p base : String) : String :=
  if strStartsWith p (base ++ "/") then ⟨p.data.drop (base.data.length + 1)⟩ else p

/-- Models `os.path.abspath`.  Every path this embedding builds is already
absolute and normalised, on which `abspath` is the identity. -/
def abspath (p : String) : String := p

/-- Models Python `s.lower()` (only ever applied to ASCII extensions here). -/
def lowerStr (s : String) : String := ⟨s.data.map Char.toLower⟩

/-- Extension of a basename per `os.path.splitext`: the suffix from the last
dot, except that leading dots of the basename never start an extension. -/
def extOfChars (b : List Char) : List Char :=
  let lead := b.takeWhile (fun c => c == '.')
  let rest := b.drop lead.length
  if rest.any (fun c => c == '.') then
    '.' :: (rest.reverse.takeWhile (fun c => !(c == '.'))).reverse
  else []

/-- Models `os.path.splitext(p)[1]`. -/
def splitextExt (p : String) : String := ⟨extOfChars (basenameStr p).data⟩

/-- Splits the raw content of a `[...]` wildcard class at the closing `]`,
returning `none` when the class is unterminated (then `[` is literal). -/
def splitClose : List Char → Option (List Char × List Char)
  | [] => none
  | ']' :: t => some ([], t)
  | c :: t =>
    match splitClose t with
    | none => none
    | some (b, r) => some (c :: b, r)

/-- Parses a `[...]` wildcard class after the opening bracket, following
`fnmatch.translate`: a leading `!` negates, a `]` right after the opening
(or after `!`) is a literal member. -/
def parseClass (ps : List Char) : Option (Bool × List Char × List Char) :=
  let negSplit : Bool × List Char :=
    match ps with
    | '!' :: t => (true, t)
    | _ => (false, ps)
  let leadSplit : List Char × List Char :=
    match negSplit.2 with
    | ']' :: t => ([']'], t)
    | _ => ([], negSplit.2)
  match splitClose leadSplit.2 with
  | none => none
  | some (b, r) => some (negSplit.1, leadSplit.1 ++ b, r)

/-- Membership of a character in the raw body of a wildcard class, with
`a-b` ranges as in `fnmatch.translate`. -/
def charInClass : List Char → Char → Bool
  | a :: '-' :: b :: rest, c => (a ≤ c && c ≤ b) || charInClass rest c
  | a :: rest, c => (a == c) || charInClass rest c
  | [], _ => false

/-- Shell-style wildcard matching engine (`*`, `?`, `[...]` with ranges and
`!` negation), as `fnmatch.fnmatch` performs on POSIX where `normcase` is the
identity.  The fuel argument only makes the recursion structural; every call
consumes either pattern or subject, so `pattern + subject + 1` fuel always
suffices. -/
def globMatchF : Nat → List Char → List Char → Bool
  | 0, _, _ => false
  | _ + 1, [], s => s.isEmpty
  | fuel + 1, '*' :: ps, s =>
    globMatchF fuel ps s ||
      (match s with
       | [] => false
       | _ :: ss => globMatchF fuel ('*' :: ps) ss)
  | fuel + 1, '?' :: ps, s =>
    (match s with
     | [] => false
     | _ :: ss => globMatchF fuel ps ss)
  | fuel + 1, '[' :: ps, s =>
    (match parseClass ps with
     | some (neg, body, rest) =>
       (match s with
        | [] => false
        | c :: ss =>
          (if neg then !(charInClass body c) else charInClass body c) && globMatchF fuel rest ss)
     | none =>
       (match s with
        | [] => false
        | c :: ss => ('[' == c) && globMatchF fuel ps ss))
  | fuel + 1, p :: ps, s =>
    (match s with
     | [] => false
     | c :: ss => (p == c) && globMatchF fuel ps ss)

/-- Models `fnmatch.fnmatch(name, pattern)` (POSIX case-sensitive). -/
def fnmatch (name pattern : String) : Bool :=
  globMatchF (name.data.length + pattern.data.length + 1) pattern.data name.data

/-- Models `is_excluded(path, exclude_patterns)` from `listcontents.py`.
An empty list stands for Python `None` or `[]`, both falsy. -/
def is_excluded (path : String) (exclude_patterns : List String) : Bool :=
  match exclude_patterns with
  | [] => false
  | _ :: _ =>
    exclude_patterns.any fun pattern =>
      if strEndsWith pattern "/" then
        let pattern_name := rstripSlash pattern
        strStartsWith path pattern ||
          strContainsSub path ("/" ++ pattern_name ++ "/") ||
          strEndsWith path ("/" ++ pattern_name)
      else
        let filename := basenameStr path
        path == pattern ||
          strContainsSub path ("/" ++ pattern) ||
          filename == pattern ||
          fnmatch filename pattern ||
          fnmatch path pattern

/-- Models `is_included(path, include_patterns, base_dir)` from
`listcontents.py`. -/
def is_included (path : String) (include_patterns : List String) (base_dir : String) : Bool :=
  match include_patterns with
  | [] => false
  | _ :: _ =>
    let rel_path := relpathStr path base_dir
    include_patterns.any fun pattern =>
      if strEndsWith pattern "/" then
        strStartsWith rel_path pattern
      else
        fnmatch rel_path pattern ||
          fnmatch (basenameStr rel_path) pattern ||
          rel_path == pattern ||
          strStartsWith rel_path (pattern ++ "/")

/-- Joins the common-prefix components back into a path string, used by
`commonpath`. -/
def commonPrefixL : List String → List String → List String
  | a :: as, b :: bs => if a == b then a :: commonPrefixL as bs else []
  | _, _ => []

/-- Models `os.path.commonpath([a, b])` on POSIX: raises `ValueError` when one
path is absolute and the other relative, otherwise returns the longest common
component prefix (empty and `.` components dropped). -/
def commonpath (a b : String) : Except String String :=
  let aAbs := strStartsWith a "/"
  let bAbs := strStartsWith b "/"
  if aAbs != bAbs then .error "Cannot mix absolute and relative paths"
  else
    let aComps := (splitSlash a).filter (fun c => !(c == "") && !(c == "."))
    let bComps := (splitSlash b).filter (fun c => !(c == "") && !(c == "."))
    .ok ((if aAbs then "/" else "") ++ joinRel (commonPrefixL aComps bComps))

/-- Interface of a matcher compiled from one `.gitignore` file by the external
`gitignore_parser` collaborator: a predicate on absolute paths that, like any
Python callable, may raise (modelled by `Except.error`). -/
def GitignoreMatcher : Type := String → Except String Bool

/-- Scope test both call sites perform before consulting a matcher:
`os.path.commonpath([p, base]) == base`. -/
def matcherInScope (p base : String) : Except String Bool :=
  match commonpath p base with
  | .error e => .error e
  | .ok c => .ok (c == base)

/-- Shared loop body of the gitignore checks in `should_process_file` (which
returns `False` at the first in-scope matcher that flags the path) and in
`safe_walk` (which sets `is_dir_ignored` and breaks): scans the
`(base_dir, matcher)` pairs in order and reports whether some in-scope matcher
flags `p`, propagating the first exception raised by `commonpath` or by a
matcher. -/
def anyMatcherFlags (p : String) : List (String × GitignoreMatcher) → Except String Bool
  | [] => .ok false
  | (mb, m) :: rest =>
    match matcherInScope p (abspath mb) with
    | .error e => .error e
    | .ok true =>
      match m p with
      | .error e => .error e
      | .ok true => .ok true
      | .ok false => anyMatcherFlags p rest
    | .ok false => anyMatcherFlags p rest

/-- Include/exclude component of `should_process_file`: in include mode a
file not matching the include patterns is rejected, in exclude mode a file
matching the exclude patterns is rejected. -/
def spf_pattern_reject (file_path base_dir : String)
    (exclude_patterns include_patterns : List String) : Bool :=
  match include_patterns with
  | [] => is_excluded file_path exclude_patterns
  | _ :: _ => !(is_included file_path include_patterns base_dir)

/-- Body of the `try:` block of `should_process_file`: the include/exclude
decision, then the gitignore check, then the extension check (with the
PDF override).  An exception anywhere inside surfaces as `Except.error`.
Empty pattern and matcher lists stand for Python `None` or `[]`, both falsy. -/
def should_process_file_checked (file_path base_dir : String)
    (extensions exclude_patterns include_patterns : List String)
    (gitignore_matchers : List (String × GitignoreMatcher))
    (allow_ignored parse_pdf : Bool) : Except String Bool :=
  if spf_pattern_reject file_path base_dir exclude_patterns include_patterns then .ok false
  else
    match
      (if !allow_ignored && !gitignore_matchers.isEmpty then
        anyMatcherFlags (abspath file_path) gitignore_matchers
      else .ok false) with
    | .error e => .error e
    | .ok true => .ok false
    | .ok false =>
      let file_ext := lowerStr (splitextExt file_path)
      if parse_pdf && (file_ext == ".pdf") then .ok true
      else if extensions.isEmpty then .ok true
      else .ok (extensions.contains file_ext)

/-- Models `should_process_file` from `listcontents.py`: the checked body with
the surrounding `except Exception: ... return False`.  Totality (the claim
that the function always yields a boolean) is the Lean type itself. -/
def should_process_file (file_path base_dir : String)
    (extensions exclude_patterns include_patterns : List String)
    (gitignore_matchers : List (String × GitignoreMatcher))
    (allow_ignored parse_pdf : Bool) : Bool :=
  match should_process_file_checked file_path base_dir extensions exclude_patterns
      include_patterns gitignore_matchers allow_ignored parse_pdf with
  | .ok b => b
  | .error _ => false

/-- Outcome of `open(file_path, "r", encoding="utf-8")` followed by `read()`
in `process_file`: the decoded text, or one of the caught exception kinds. -/
inductive TextResult where
  | ok (s : String)
  | unicodeError
  | permError
  | osError (msg : String)
deriving DecidableEq

/-- Dynamic state of one file at processing time: the results of every
filesystem interaction `process_file` and `is_binary_file` can perform on it.
`readBytes = none` means opening or reading the file for the binary sniff
raises; `unexpected = some msg` means the body of `process_file` raises an
unexpected exception caught by its outer handler. -/
structure FileData where
  existsAtRead : Bool
  readable : Bool
  readBytes : Option (List Nat)
  readText : TextResult
  pdfText : String
  unexpected : Option String
deriving DecidableEq

/-- Models `is_binary_file`: the first 1024 bytes contain a null byte, or the
read fails (then the file is conservatively treated as binary). -/
def is_binary_file (fd : FileData) : Bool :=
  match fd.readBytes with
  | none => true
  | some chunk => (chunk.take 1024).contains 0

/-- Models `is_pdf_file`: case-insensitive `.pdf` suffix test on the path. -/
def is_pdf_file (file_path : String) : Bool :=
  strEndsWith (lowerStr file_path) ".pdf"

/-- Models `process_file(file_path, base_dir, parse_pdf)`.  The result is the
list of strings passed to `print`, one element per call; the final `""` is the
blank line that closes every block. -/
def process_file (file_path base_dir : String) (fd : FileData) (parse_pdf : Bool) :
    List String :=
  match fd.unexpected with
  | some msg => ["// " ++ file_path, "<Error processing file: " ++ msg ++ ">", ""]
  | none =>
    if !fd.existsAtRead then ["// " ++ file_path, "<File not found>", ""]
    else if !fd.readable then ["// " ++ file_path, "<Permission denied>", ""]
    else
      let rel_path := relpathStr file_path base_dir
      if parse_pdf && is_pdf_file file_path then
        ["// " ++ rel_path, fd.pdfText, ""]
      else if is_binary_file fd then
        ["// " ++ rel_path, "<Binary file>", ""]
      else
        match fd.readText with
        | .ok s => ["// " ++ rel_path, s, ""]
        | .unicodeError => ["// " ++ rel_path, "<File contains invalid Unicode characters>", ""]
        | .permError => ["// " ++ rel_path, "<Permission denied>", ""]
        | .osError m => ["// " ++ rel_path, "<Error reading file: " ++ m ++ ">", ""]

/-- Include/exclude component of the directory decision of `safe_walk`: in
include mode a directory is kept when its start-relative path and some include
pattern (trailing slashes stripped) are prefixes of one another; in exclude
mode it is kept unless `is_excluded` matches. -/
def safe_walk_pattern_keep (dir_path rel_dir_path : String)
    (exclude_patterns include_patterns : List String) : Bool :=
  match include_patterns with
  | [] => !(is_excluded dir_path exclude_patterns)
  | _ :: _ =>
    include_patterns.any fun pattern =>
      let norm_pattern := rstripSlash pattern
      strStartsWith rel_dir_path norm_pattern || strStartsWith norm_pattern rel_dir_path

/-- Decision `safe_walk` takes for one candidate child directory: the
include-mode prefix keep (or the exclude-mode `is_excluded` test), then the
scoped gitignore check.  `Except.ok true` means the directory is appended to
`dirs` (kept); exceptions escape to the `except` clause of `safe_walk` and
abort the whole walk. -/
def safe_walk_keep_dir (dir_path rel_dir_path : String)
    (exclude_patterns include_patterns : List String)
    (gitignore_matchers : List (String × GitignoreMatcher))
    (allow_ignored : Bool) : Except String Bool :=
  if !(safe_walk_pattern_keep dir_path rel_dir_path exclude_patterns include_patterns) then
    .ok false
  else if !allow_ignored && !gitignore_matchers.isEmpty then
    match anyMatcherFlags dir_path gitignore_matchers with
    | .error e => .error e
    | .ok ig => .ok (!ig)
  else .ok true

/-- Node of the filesystem as one run observes it.  A directory records
whether listing its entries fails (an `OSError` from `os.scandir`, which
`os.walk` with its default `onerror=None` silently ignores). -/
inductive FSNode where
  | dirNode (listErr : Bool)
  | fileNode (fd : FileData)
deriving DecidableEq

/-- Filesystem below the start directory: a finite map from start-relative
component paths to nodes.  The start directory itself is the entry with
key `[]`. -/
structure FS where
  entries : List (List String × FSNode)

/-- Node found at a start-relative path, if any. -/
def lookupNode (fs : FS) (relParts : List String) : Option FSNode :=
  (fs.entries.find? (fun e => e.1 == relParts)).map (fun e => e.2)

/-- Directory listing produced by `os.scandir`: the immediate children of
`relParts`, in the order the filesystem reports them. -/
def childrenOf (fs : FS) (relParts : List String) : List (String × FSNode) :=
  fs.entries.filterMap fun e =>
    if e.1.dropLast == relParts then
      match e.1.getLast? with
      | some n => some (n, e.2)
      | none => none
    else none

/-- Names of the subdirectories in a listing (the `dirs` of an `os.walk`
triple), in listing order. -/
def dirChildNames (entries : List (String × FSNode)) : List String :=
  entries.filterMap fun e =>
    match e.2 with
    | .dirNode _ => some e.1
    | .fileNode _ => none

/-- The files of a listing (the `files` of an `os.walk` triple) with their
dynamic state, in listing order. -/
def fileChildren (entries : List (String × FSNode)) : List (String × FileData) :=
  entries.filterMap fun e =>
    match e.2 with
    | .fileNode fd => some (e.1, fd)
    | .dirNode _ => none

/-- One block emitted to standard output: the start-relative component path of
the processed file and the lines printed for it. -/
structure Emitted where
  relPath : List String
  block : List String
deriving DecidableEq

/-- Observable outcome of a (partial) walk: the emitted blocks, the warnings
logged, and — when an exception escaped to the `except` clause of `safe_walk`,
ending the generator — its message. -/
structure WalkOut where
  ems : List Emitted
  warns : List String
  aborted : Option String
deriving DecidableEq

/-- Run configuration after argument handling in `main`: the start directory
(absolute, no trailing separator), the normalised extension list, the
exclude/include pattern lists (empty standing for Python `None`/`[]`), the
`(base_dir, matcher)` pairs loaded from `.gitignore` files, and the flags. -/
structure Config where
  dir : String
  extensions : List String
  excludePatterns : List String
  includePatterns : List String
  matchers : List (String × GitignoreMatcher)
  allowIgnored : Bool
  skipBinary : Bool
  parsePdf : Bool
  maxDepth : Option Int

/-- Ordering on the name component of directory entries, used to model
`sorted(files)` (Python sorts the filename strings by code points). -/
def fileLe (a b : String × FileData) : Prop := charListLe a.1.data b.1.data = true

instance : DecidableRel fileLe := fun a b =>
  inferInstanceAs (Decidable (charListLe a.1.data b.1.data = true))

/-- Models `sorted(files)` in `main`: the directory entries sorted by
filename. -/
def sortFiles (files : List (String × FileData)) : List (String × FileData) :=
  List.insertionSort fileLe files

/-- Warning `is_binary_file` logs when its read fails (before returning
`True`). -/
def binaryProbeWarns (file_path : String) (fd : FileData) : List String :=
  match fd.readBytes with
  | none => ["Error checking if file is binary (" ++ file_path ++ ")"]
  | some _ => []

/-- Warnings the `is_binary_file` call inside `process_file` produces, i.e.
the probe warning exactly when `process_file` reaches its binary check. -/
def processFileWarns (file_path : String) (fd : FileData) (parse_pdf : Bool) : List String :=
  match fd.unexpected with
  | some _ => []
  | none =>
    if !fd.existsAtRead then []
    else if !fd.readable then []
    else if parse_pdf && is_pdf_file file_path then []
    else binaryProbeWarns file_path fd

/-- Per-file body of the inner loop of `main` (lines 657-677): skip hidden
names, consult `should_process_file`, apply the `--skip-binary` pre-check,
then run `process_file`.  Returns the block printed (if any) and the warnings
logged. -/
def handleFile (cfg : Config) (relParts : List String) (fname : String) (fd : FileData) :
    Option (List String) × List String :=
  if strStartsWith fname "." then (none, [])
  else
    let file_path := joinUnder cfg.dir (relParts ++ [fname])
    match should_process_file_checked file_path cfg.dir cfg.extensions cfg.excludePatterns
        cfg.includePatterns cfg.matchers cfg.allowIgnored cfg.parsePdf with
    | .error e =>
      (none, ["Error checking file processing criteria (" ++ file_path ++ "): " ++ e])
    | .ok false => (none, [])
    | .ok true =>
      if cfg.skipBinary && is_binary_file fd then
        (none, binaryProbeWarns file_path fd)
      else
        (some (process_file file_path cfg.dir fd cfg.parsePdf),
          (if cfg.skipBinary then binaryProbeWarns file_path fd else []) ++
            processFileWarns file_path fd cfg.parsePdf)

/-- Blocks emitted for the files of one visited directory, in sorted filename
order. -/
def processFilesEms (cfg : Config) (relParts : List String)
    (files : List (String × FileData)) : List Emitted :=
  (sortFiles files).filterMap fun p =>
    (handleFile cfg relParts p.1 p.2).1.map (fun b => ⟨relParts ++ [p.1], b⟩)

/-- Warnings logged while processing the files of one visited directory. -/
def processFilesWarns (cfg : Config) (relParts : List String)
    (files : List (String × FileData)) : List String :=
  ((sortFiles files).map (fun p => (handleFile cfg relParts p.1 p.2).2)).flatten

/-- In-place filtering of `dirs` that `safe_walk` performs before yielding a
triple: each candidate child in listing order through `safe_walk_keep_dir`.
The first exception aborts the walk (`Except.error`). -/
def filterDirs (cfg : Config) (relParts : List String) :
    List String → Except String (List String)
  | [] => .ok []
  | d :: rest =>
    match safe_walk_keep_dir (joinUnder cfg.dir (relParts ++ [d])) (joinRel (relParts ++ [d]))
        cfg.excludePatterns cfg.includePatterns cfg.matchers cfg.allowIgnored with
    | .error e => .error e
    | .ok true =>
      match filterDirs cfg relParts rest with
      | .error e => .error e
      | .ok ds => .ok (d :: ds)
    | .ok false => filterDirs cfg relParts rest

/-- Depth cut of `main`: `root[len(args.dir):].count(os.sep) >= max_depth`
clears the pending child list and skips the directory.  The separator count of
a visited directory is the number of its start-relative components. -/
def depthCut (maxDepth : Option Int) (relParts : List String) : Bool :=
  match maxDepth with
  | none => false
  | some d => (relParts.length : Int) ≥ d

/-- Sequencing of the walks of the kept children: later subtrees run only if
no earlier one aborted (an exception ends the `os.walk` generator for good). -/
def walkSeq : List WalkOut → WalkOut
  | [] => ⟨[], [], none⟩
  | w :: rest =>
    match w.aborted with
    | some e => ⟨w.ems, w.warns, some e⟩
    | none =>
      let r := walkSeq rest
      ⟨w.ems ++ r.ems, w.warns ++ r.warns, r.aborted⟩

/-- The walk of `main` over `safe_walk` from one directory `relParts` below
the start: `os.walk` lists the directory (silently yielding nothing on a
listing error, or when the path is not a listable directory); `safe_walk`
filters the child directories (an exception here ends the walk, so the
directory's own files are never processed); `main` then drops hidden child
directories, applies the depth cut, processes the files in sorted order
(hidden files skipped), and `os.walk` recurses into the kept children.  The
fuel argument only makes the recursion structural; `fsFuel` below always
suffices for a complete run. -/
def walkDirF (cfg : Config) (fs : FS) : Nat → List String → WalkOut
  | 0, _ => ⟨[], [], none⟩
  | fuel + 1, relParts =>
    match lookupNode fs relParts with
    | some (.dirNode false) =>
      let entries := childrenOf fs relParts
      match filterDirs cfg relParts (dirChildNames entries) with
      | .error e => ⟨[], [], some e⟩
      | .ok kept =>
        let kept2 := kept.filter (fun n => !(strStartsWith n "."))
        if depthCut cfg.maxDepth relParts then ⟨[], [], none⟩
        else
          let sub := walkSeq (kept2.map (fun n => walkDirF cfg fs fuel (relParts ++ [n])))
          ⟨processFilesEms cfg relParts (fileChildren entries) ++ sub.ems,
            processFilesWarns cfg relParts (fileChildren entries) ++ sub.warns,
            sub.aborted⟩
    | _ => ⟨[], [], none⟩

/-- Fuel sufficient to walk `fs` completely: deeper than every recorded
path. -/
def fsFuel (fs : FS) : Nat :=
  fs.entries.foldr (fun e m => max e.1.length m) 0 + 1

/-- The walk portion of `main`: `safe_walk(args.dir, ...)` consumed by the
outer `for` loop. -/
def runWalk (cfg : Config) (fs : FS) : WalkOut :=
  walkDirF cfg fs (fsFuel fs) []

/-- Models the whole traversal of `main`, including the warning `safe_walk`
logs when an exception reaches its `except` clause (after which it yields one
final empty triple and the run still finishes normally). -/
def runWalkFull (cfg : Config) (fs : FS) : WalkOut :=
  let w := runWalk cfg fs
  match w.aborted with
  | some e =>
    ⟨w.ems, w.warns ++ ["Error walking directory " ++ cfg.dir ++ ": " ++ e], w.aborted⟩
  | none => w

/-- Loop of `find_git_root` with the remaining upward steps listed
innermost-first: `rev` is the reversed component list of the current absolute
path, so dropping its head is `os.path.dirname`.  At the filesystem root
(`rev = []`) the parent equals the path and the loop stops. -/
def fgrAux (ex : List String → Bool) : List String → Option (List String)
  | [] => if ex [".git"] then some [] else none
  | c :: rest =>
    if ex ((c :: rest).reverse ++ [".git"]) then some (c :: rest).reverse
    else fgrAux ex rest

/-- Models `find_git_root(start_path)` over an abstract filesystem: `ex` is
`os.path.exists`, paths are absolute component lists (the filesystem root is
`[]`), and the marker probe for directory `q` is `ex (q ++ [".git"])`. -/
def find_git_root (ex : List String → Bool) (p : List String) : Option (List String) :=
  fgrAux ex p.reverse

/-! Concrete fixtures used by witnesses and counterexamples. -/

/-- Plain readable text file containing `s` (bytes `hi`, no null). -/
def fdText (s : String) : FileData := ⟨true, true, some [104, 105], .ok s, "", none⟩

/-- File that has vanished between listing and processing. -/
def fdMissing : FileData := ⟨false, true, none, .ok "x", "", none⟩

/-- Readable file whose first bytes contain a null byte. -/
def fdBinZero : FileData := ⟨true, true, some [0, 1, 2], .ok "raw", "", none⟩

/-- Readable PDF whose bytes look binary; the external extractor would return
`EXTRACTED`. -/
def fdPdfBin : FileData := ⟨true, true, some [0, 1, 2], .ok "raw", "EXTRACTED", none⟩

/-- Matcher compiled from `/proj/.gitignore` with the rule `build/`. -/
def mGi : GitignoreMatcher := fun p => .ok (strContainsSub p "/build")

/-- Run over `/proj` with gitignore rules enabled. -/
def cfgA : Config := ⟨"/proj", [], [], [], [("/proj", mGi)], false, false, false, none⟩

/-- Tree `proj/build/out.txt`, `proj/src/main.py`. -/
def fsA : FS := ⟨[
  ([], .dirNode false),
  (["build"], .dirNode false),
  (["build", "out.txt"], .fileNode (fdText "out")),
  (["src"], .dirNode false),
  (["src", "main.py"], .fileNode (fdText "code"))]⟩

/-- Matcher scoped to `/r` that flags exactly the start directory `/r/s`. -/
def mFlagStart : GitignoreMatcher := fun p => .ok (p == "/r/s")

/-- Run started inside the flagged directory `/r/s`. -/
def cfg2cex : Config := ⟨"/r/s", [], [], [], [("/r", mFlagStart)], false, false, false, none⟩

/-- The flagged start directory contains one plain file. -/
def fs2cex : FS := ⟨[([], .dirNode false), (["a.txt"], .fileNode (fdText "hi"))]⟩

/-- Run over `/r` with maximum depth 1. -/
def cfgD : Config := ⟨"/r", [], [], [], [], false, false, false, some 1⟩

/-- Tree with files at depths 0, 1 and 2 below the start. -/
def fsD : FS := ⟨[
  ([], .dirNode false),
  (["top.txt"], .fileNode (fdText "t")),
  (["x"], .dirNode false),
  (["x", "mid.txt"], .fileNode (fdText "m")),
  (["x", "y"], .dirNode false),
  (["x", "y", "deep.txt"], .fileNode (fdText "d"))]⟩

/-- Plain run over `/r`: no filters, no matchers, no limits. -/
def cfgE : Config := ⟨"/r", [], [], [], [], false, false, false, none⟩

/-- Tree where listing the subdirectory `b` raises a filesystem error while
the sibling file `a.txt` is fine. -/
def fsF : FS := ⟨[
  ([], .dirNode false),
  (["a.txt"], .fileNode (fdText "hi")),
  (["b"], .dirNode true),
  (["b", "c.txt"], .fileNode (fdText "c"))]⟩

/-- Run with both `--parse-pdf` and `--skip-binary`. -/
def cfgSkipPdf : Config := ⟨"/r", [], [], [], [], false, true, true, none⟩

/-- Run with `--parse-pdf` but without `--skip-binary`. -/
def cfgPdfNoSkip : Config := ⟨"/r", [], [], [], [], false, false, true, none⟩

/-- Matcher that raises on every path. -/
def boomMatcher : GitignoreMatcher := fun _ => .error "boom"

/-- Existence predicate with repository markers at `/` and `/a`. -/
def exJ (q : List String) : Bool := q == ["a", ".git"] || q == [".git"]

/-! Helper lemmas. -/

/-- The boolean filter decision is `True` exactly when its checked body
returns `True` without raising. -/
theorem should_process_file_eq_true_iff (file_path base_dir : String)
    (extensions exclude_patterns include_patterns : List String)
    (ms : List (String × GitignoreMatcher)) (allow_ignored parse_pdf : Bool) :
    should_process_file file_path base_dir extensions exclude_patterns include_patterns ms
        allow_ignored parse_pdf = true ↔
      should_process_file_checked file_path base_dir extensions exclude_patterns
        include_patterns ms allow_ignored parse_pdf = .ok true := by
  unfold should_process_file
  cases h : should_process_file_checked file_path base_dir extensions exclude_patterns
      include_patterns ms allow_ignored parse_pdf with
  | ok b => cases b <;> simp
  | error e => simp

/-- C1: for every run, include mode and exclude mode are mutually exclusive —
whenever the include-pattern list is non-empty, the exclude-pattern list is
never consulted by the file-level decision (`should_process_file`) or the
directory-level decision of `safe_walk`; both decisions are invariant under
replacing the exclude list, so exclusion can only reject a path when no
include patterns were given (instantiate the second list with `[]`). -/
theorem C1_include_mode_never_consults_excludes
    (file_path base_dir dir_path rel_dir_path : String)
    (extensions exc exc2 include_patterns : List String)
    (ms : List (String × GitignoreMatcher)) (allow_ignored parse_pdf : Bool)
    (h : include_patterns ≠ []) :
    should_process_file file_path base_dir extensions exc include_patterns ms
        allow_ignored parse_pdf =
      should_process_file file_path base_dir extensions exc2 include_patterns ms
        allow_ignored parse_pdf ∧
    safe_walk_keep_dir dir_path rel_dir_path exc include_patterns ms allow_ignored =
      safe_walk_keep_dir dir_path rel_dir_path exc2 include_patterns ms allow_ignored := by
  cases include_patterns with
  | nil => exact absurd rfl h
  | cons p ps => exact ⟨rfl, rfl⟩

/-- Witness for C1 at a concrete run in include mode. -/
theorem C1_witness :
    should_process_file "/r/a.py" "/r" [] ["a.py"] ["src/"] [] false false =
      should_process_file "/r/a.py" "/r" [] [] ["src/"] [] false false ∧
    safe_walk_keep_dir "/r/src" "src" ["x/"] ["src/"] [] false =
      safe_walk_keep_dir "/r/src" "src" [] ["src/"] [] false :=
  C1_include_mode_never_consults_excludes "/r/a.py" "/r" "/r/src" "src" [] ["a.py"] []
    ["src/"] [] false false (by decide)

/-- C10: the file-level filter decision is total — its Lean type is already
`Bool`, mirroring that every code path of the Python function returns a
boolean — and whenever its checked body raises, the surrounding handler turns
the exception into `False`, so a file that cannot be evaluated is rejected. -/
theorem C10_exception_means_rejected (file_path base_dir : String)
    (extensions exclude_patterns include_patterns : List String)
    (ms : List (String × GitignoreMatcher)) (allow_ignored parse_pdf : Bool) (e : String)
    (h : should_process_file_checked file_path base_dir extensions exclude_patterns
        include_patterns ms allow_ignored parse_pdf = .error e) :
    should_process_file file_path base_dir extensions exclude_patterns include_patterns ms
        allow_ignored parse_pdf = false := by
  unfold should_process_file
  rw [h]

/-- Witness for C10: a matcher that raises makes the decision `False`. -/
theorem C10_witness :
    should_process_file "/r/a.txt" "/r" [] [] [] [("/r", boomMatcher)] false false = false :=
  C10_exception_means_rejected "/r/a.txt" "/r" [] [] [] [("/r", boomMatcher)] false false
    "boom" rfl

/-- C5: whenever `process_file` reaches its binary check (the file exists, is
readable, no unexpected exception, and the PDF branch is not taken) and the
first 1024 bytes contain a null byte — or the probing read fails — the block
is the binary placeholder, not the decoded text. -/
theorem C5_binary_placeholder (file_path base_dir : String) (fd : FileData) (parse_pdf : Bool)
    (hun : fd.unexpected = none) (hex : fd.existsAtRead = true) (hrd : fd.readable = true)
    (hpdf : ¬(parse_pdf = true ∧ is_pdf_file file_path = true))
    (hbin : fd.readBytes = none ∨ ∃ bs, fd.readBytes = some bs ∧ (0 : Nat) ∈ bs.take 1024) :
    process_file file_path base_dir fd parse_pdf =
      ["// " ++ relpathStr file_path base_dir, "<Binary file>", ""] := by
  have hb : is_binary_file fd = true := by
    cases hbin with
    | inl h => simp [is_binary_file, h]
    | inr h =>
      obtain ⟨bs, h1, h2⟩ := h
      simp only [is_binary_file, h1]
      exact List.elem_eq_true_of_mem h2
  have hnp : (parse_pdf && is_pdf_file file_path) = false := by
    cases hp : parse_pdf <;> cases hq : is_pdf_file file_path <;> simp_all
  simp [process_file, hun, hex, hrd, hnp, hb]

/-- Witness for C5 at a concrete binary file. -/
theorem C5_witness :
    process_file "/r/a.bin" "/r" fdBinZero false = ["// a.bin", "<Binary file>", ""] :=
  C5_binary_placeholder "/r/a.bin" "/r" fdBinZero false rfl rfl rfl (by decide)
    (Or.inr ⟨[0, 1, 2], rfl, by decide⟩)

/-- C7 fails as stated: in the error branches (file not found, permission
denied at the access check, unexpected processing error) the header printed is
`// <file_path>` with the path exactly as passed — here the absolute
`/r/a.txt` — not the path relative to the scan root (`a.txt`). -/
theorem C7_counterexample :
    process_file "/r/a.txt" "/r" fdMissing false = ["// /r/a.txt", "<File not found>", ""] ∧
    "// /r/a.txt" ≠ "// " ++ relpathStr "/r/a.txt" "/r" := by
  exact ⟨rfl, by decide⟩

/-- C7 amended: every processed file, error cases included, yields exactly a
single header line, one content-or-placeholder string, and a closing blank
line — but the header shows the path relative to the scan root only for files
that still exist and are readable (and in the mid-read error branches); the
not-found, permission-denied and unexpected-error branches show the raw file
path instead. -/
theorem C7_amended_block_shape (file_path base_dir : String) (fd : FileData) (parse_pdf : Bool) :
    ∃ body : String,
      process_file file_path base_dir fd parse_pdf =
        ["// " ++ (if fd.unexpected.isSome || !fd.existsAtRead || !fd.readable
                   then file_path else relpathStr file_path base_dir),
          body, ""] := by
  unfold process_file
  cases hu : fd.unexpected with
  | some m => exact ⟨"<Error processing file: " ++ m ++ ">", by simp [hu]⟩
  | none =>
    cases he : fd.existsAtRead with
    | false => exact ⟨"<File not found>", by simp [hu, he]⟩
    | true =>
      cases hr : fd.readable with
      | false => exact ⟨"<Permission denied>", by simp [hu, he, hr]⟩
      | true =>
        by_cases hp : (parse_pdf && is_pdf_file file_path) = true
        · exact ⟨fd.pdfText, by simp [hu, he, hr, hp]⟩
        · rw [Bool.not_eq_true] at hp
          by_cases hbn : is_binary_file fd = true
          · exact ⟨"<Binary file>", by simp [hu, he, hr, hp, hbn]⟩
          · rw [Bool.not_eq_true] at hbn
            cases ht : fd.readText with
            | ok s => exact ⟨s, by simp [hu, he, hr, hp, hbn, ht]⟩
            | unicodeError =>
              exact ⟨"<File contains invalid Unicode characters>", by simp [hu, he, hr, hp, hbn, ht]⟩
            | permError => exact ⟨"<Permission denied>", by simp [hu, he, hr, hp, hbn, ht]⟩
            | osError m =>
              exact ⟨"<Error reading file: " ++ m ++ ">", by simp [hu, he, hr, hp, hbn, ht]⟩

/-- C4 fails as stated: with `--skip-binary` also active, a PDF whose bytes
look binary is dropped by the pre-check in `main` before `process_file` runs,
so the extractor result is never printed even though the path filter accepted
the file and PDF-extraction mode is on. -/
theorem C4_counterexample :
    should_process_file "/r/doc.pdf" "/r" [] [] [] [] false true = true ∧
    cfgSkipPdf.parsePdf = true ∧
    is_pdf_file "/r/doc.pdf" = true ∧
    is_binary_file fdPdfBin = true ∧
    (handleFile cfgSkipPdf [] "doc.pdf" fdPdfBin).1 = none := by
  exact ⟨by decide, rfl, by decide, by decide, by decide⟩

/-- C4 amended: for every file with the PDF extension accepted by the path
filter in a run with PDF-extraction mode enabled, provided the file is not
dropped by the `--skip-binary` pre-check and is still present and readable at
processing time, the block printed is the extractor result — regardless of
whether the file's bytes look binary, since the PDF branch of `process_file`
precedes binary detection. -/
theorem C4_pdf_precedence (cfg : Config) (relParts : List String) (fname : String)
    (fd : FileData)
    (hpp : cfg.parsePdf = true)
    (hpdf : is_pdf_file (joinUnder cfg.dir (relParts ++ [fname])) = true)
    (hhid : strStartsWith fname "." = false)
    (hacc : should_process_file (joinUnder cfg.dir (relParts ++ [fname])) cfg.dir
        cfg.extensions cfg.excludePatterns cfg.includePatterns cfg.matchers
        cfg.allowIgnored cfg.parsePdf = true)
    (hsb : ¬(cfg.skipBinary = true ∧ is_binary_file fd = true))
    (hun : fd.unexpected = none) (hex : fd.existsAtRead = true) (hrd : fd.readable = true) :
    (handleFile cfg relParts fname fd).1 =
      some ["// " ++ relpathStr (joinUnder cfg.dir (relParts ++ [fname])) cfg.dir,
        fd.pdfText, ""] := by
  have hchk := (should_process_file_eq_true_iff (joinUnder cfg.dir (relParts ++ [fname]))
    cfg.dir cfg.extensions cfg.excludePatterns cfg.includePatterns cfg.matchers
    cfg.allowIgnored cfg.parsePdf).mp hacc
  have hsb2 : (cfg.skipBinary && is_binary_file fd) = false := by
    cases h1 : cfg.skipBinary <;> cases h2 : is_binary_file fd <;> simp_all
  have hpb : (cfg.parsePdf && is_pdf_file (joinUnder cfg.dir (relParts ++ [fname]))) = true := by
    rw [hpp, hpdf]; rfl
  unfold handleFile
  rw [hhid]
  simp only [Bool.false_eq_true, if_false, hchk, hsb2, Bool.false_eq_true, if_false]
  unfold process_file
  rw [hun, hex, hrd]
  simp [hpb]

/-- Witness for C4 amended: without `--skip-binary` the binary-looking PDF
goes through the extractor. -/
theorem C4_witness :
    (handleFile cfgPdfNoSkip [] "doc.pdf" fdPdfBin).1 =
      some ["// " ++ relpathStr (joinUnder cfgPdfNoSkip.dir (([] : List String) ++ ["doc.pdf"]))
        cfgPdfNoSkip.dir, fdPdfBin.pdfText, ""] :=
  C4_pdf_precedence cfgPdfNoSkip [] "doc.pdf" fdPdfBin rfl (by decide) (by decide)
    (by decide) (by decide) rfl rfl rfl

/-- Emissions of a sequenced walk come from one of its members. -/
theorem walkSeq_ems_mem {ws : List WalkOut} {em : Emitted} (h : em ∈ (walkSeq ws).ems) :
    ∃ w ∈ ws, em ∈ w.ems := by
  induction ws with
  | nil => simp [walkSeq] at h
  | cons w rest ih =>
    obtain ⟨wems, wwarns, wab⟩ := w
    cases wab with
    | some e =>
      simp only [walkSeq] at h
      exact ⟨⟨wems, wwarns, some e⟩, List.mem_cons_self _ _, h⟩
    | none =>
      simp only [walkSeq, List.mem_append] at h
      cases h with
      | inl h1 => exact ⟨⟨wems, wwarns, none⟩, List.mem_cons_self _ _, h1⟩
      | inr h2 =>
        obtain ⟨w2, hw2, hem⟩ := ih h2
        exact ⟨w2, List.mem_cons_of_mem _ hw2, hem⟩

/-- The final abort warning does not change which blocks were emitted. -/
theorem runWalkFull_ems (cfg : Config) (fs : FS) :
    (runWalkFull cfg fs).ems = (runWalk cfg fs).ems := by
  unfold runWalkFull
  cases h : (runWalk cfg fs).aborted with
  | none => simp [h]
  | some e => simp [h]

/-- Every directory name surviving the in-place filtering of `safe_walk` was
accepted by `safe_walk_keep_dir`. -/
theorem filterDirs_keep (cfg : Config) (relParts : List String) :
    ∀ names kept, filterDirs cfg relParts names = .ok kept → ∀ n ∈ kept,
      safe_walk_keep_dir (joinUnder cfg.dir (relParts ++ [n])) (joinRel (relParts ++ [n]))
        cfg.excludePatterns cfg.includePatterns cfg.matchers cfg.allowIgnored = .ok true := by
  intro names
  induction names with
  | nil =>
    intro kept h n hn
    simp only [filterDirs] at h
    cases h
    simp at hn
  | cons d rest ih =>
    intro kept h n hn
    simp only [filterDirs] at h
    cases hk : safe_walk_keep_dir (joinUnder cfg.dir (relParts ++ [d]))
        (joinRel (relParts ++ [d])) cfg.excludePatterns cfg.includePatterns cfg.matchers
        cfg.allowIgnored with
    | error e => rw [hk] at h; cases h
    | ok b =>
      cases b with
      | true =>
        rw [hk] at h
        cases hr : filterDirs cfg relParts rest with
        | error e => rw [hr] at h; cases h
        | ok ds =>
          rw [hr] at h
          cases h
          rcases List.mem_cons.mp hn with heq | hmem
          · subst heq; exact hk
          · exact ih ds hr n hmem
      | false =>
        rw [hk] at h
        exact ih kept h n hn

/-- If some in-scope matcher in the list flags the path, the shared matcher
loop cannot report a clean pass: it answers flagged or raises. -/
theorem anyMatcherFlags_ne_false (p : String) (mb : String) (m : GitignoreMatcher) :
    ∀ ms : List (String × GitignoreMatcher), (mb, m) ∈ ms →
      matcherInScope p (abspath mb) = .ok true → m p = .ok true →
      anyMatcherFlags p ms ≠ .ok false := by
  intro ms
  induction ms with
  | nil => intro h; simp at h
  | cons hd rest ih =>
    obtain ⟨hb, hm⟩ := hd
    intro hmem hscope hflag
    rcases List.mem_cons.mp hmem with heq | hmem2
    · rw [Prod.mk.injEq] at heq
      obtain ⟨h1, h2⟩ := heq
      subst h1
      subst h2
      simp only [anyMatcherFlags, hscope, hflag]
      simp
    · simp only [anyMatcherFlags]
      cases hs : matcherInScope p (abspath hb) with
      | error e => simp
      | ok b =>
        cases b with
        | false => exact ih hmem2 hscope hflag
        | true =>
          cases hm2 : hm p with
          | error e => simp
          | ok b2 =>
            cases b2 with
            | true => simp
            | false => exact ih hmem2 hscope hflag

/-- A directory flagged by an in-scope matcher is never kept by
`safe_walk_keep_dir` when ignore rules are enabled. -/
theorem keep_dir_not_kept_of_flagged (dir_path rel_dir_path : String)
    (exclude_patterns include_patterns : List String)
    (ms : List (String × GitignoreMatcher)) (mb : String) (m : GitignoreMatcher)
    (hmem : (mb, m) ∈ ms)
    (hscope : matcherInScope dir_path (abspath mb) = .ok true)
    (hflag : m dir_path = .ok true) :
    safe_walk_keep_dir dir_path rel_dir_path exclude_patterns include_patterns ms false ≠
      .ok true := by
  unfold safe_walk_keep_dir
  cases hpk : safe_walk_pattern_keep dir_path rel_dir_path exclude_patterns include_patterns with
  | false => simp
  | true =>
    have hne : ms.isEmpty = false := by
      cases ms with
      | nil => simp at hmem
      | cons a l => rfl
    simp only [hne, Bool.not_true, Bool.not_false, Bool.and_true, Bool.false_eq_true,
      if_false, if_true]
    cases ha : anyMatcherFlags dir_path ms with
    | error e => simp
    | ok ig =>
      cases ig with
      | false => exact absurd ha (anyMatcherFlags_ne_false dir_path mb m ms hmem hscope hflag)
      | true => simp

/-- A file flagged by an in-scope matcher cannot pass the checked filter body
when ignore rules are enabled. -/
theorem spf_checked_not_true_of_flagged (file_path base_dir : String)
    (extensions exclude_patterns include_patterns : List String)
    (ms : List (String × GitignoreMatcher)) (parse_pdf : Bool)
    (mb : String) (m : GitignoreMatcher)
    (hmem : (mb, m) ∈ ms)
    (hscope : matcherInScope file_path (abspath mb) = .ok true)
    (hflag : m file_path = .ok true) :
    should_process_file_checked file_path base_dir extensions exclude_patterns
      include_patterns ms false parse_pdf ≠ .ok true := by
  unfold should_process_file_checked
  cases hpr : spf_pattern_reject file_path base_dir exclude_patterns include_patterns with
  | true => simp
  | false =>
    have hne : ms.isEmpty = false := by
      cases ms with
      | nil => simp at hmem
      | cons a l => rfl
    simp only [hne, Bool.not_true, Bool.not_false, Bool.and_true, Bool.false_eq_true,
      if_false, if_true]
    cases ha : anyMatcherFlags (abspath file_path) ms with
    | error e => simp [ha]
    | ok ig =>
      cases ig with
      | false =>
        have : anyMatcherFlags file_path ms ≠ .ok false :=
          anyMatcherFlags_ne_false file_path mb m ms hmem hscope hflag
        exact absurd ha this
      | true => simp [ha]

/-- When the checked filter body does not answer a clean yes, `main` prints
nothing for the file. -/
theorem handleFile_fst_none (cfg : Config) (relParts : List String) (fname : String)
    (fd : FileData)
    (h : should_process_file_checked (joinUnder cfg.dir (relParts ++ [fname])) cfg.dir
        cfg.extensions cfg.excludePatterns cfg.includePatterns cfg.matchers cfg.allowIgnored
        cfg.parsePdf ≠ .ok true) :
    (handleFile cfg relParts fname fd).1 = none := by
  unfold handleFile
  cases hh : strStartsWith fname "." with
  | true => simp
  | false =>
    simp only [Bool.false_eq_true, if_false]
    cases hc : should_process_file_checked (joinUnder cfg.dir (relParts ++ [fname])) cfg.dir
        cfg.extensions cfg.excludePatterns cfg.includePatterns cfg.matchers cfg.allowIgnored
        cfg.parsePdf with
    | error e => simp
    | ok b =>
      cases b with
      | false => simp
      | true => exact absurd hc h

/-- Pruning invariant: while the walk stays outside a directory `D` that an
in-scope matcher flags (ignore rules enabled), it emits nothing at or below
`D` — `safe_walk` refuses to descend into `D` and `should_process_file`
rejects a file at `D`'s exact path. -/
theorem walk_never_under_flagged_dir (cfg : Config) (fs : FS) (D : List String)
    (mb : String) (m : GitignoreMatcher)
    (hmem : (mb, m) ∈ cfg.matchers)
    (hscope : matcherInScope (joinUnder cfg.dir D) (abspath mb) = .ok true)
    (hflag : m (joinUnder cfg.dir D) = .ok true)
    (hai : cfg.allowIgnored = false) :
    ∀ fuel relParts, ¬ D <+: relParts →
      ∀ em ∈ (walkDirF cfg fs fuel relParts).ems, ¬ D <+: em.relPath := by
  intro fuel
  induction fuel with
  | zero =>
    intro relParts _ em hm
    simp [walkDirF] at hm
  | succ fuel ih =>
    intro relParts hrp em hm hDem
    cases hlk : lookupNode fs relParts with
    | none => simp [walkDirF, hlk] at hm
    | some node =>
      cases node with
      | fileNode fd => simp [walkDirF, hlk] at hm
      | dirNode lerr =>
        cases lerr with
        | true => simp [walkDirF, hlk] at hm
        | false =>
          cases hfd : filterDirs cfg relParts (dirChildNames (childrenOf fs relParts)) with
          | error e => simp [walkDirF, hlk, hfd] at hm
          | ok kept =>
            cases hdc : depthCut cfg.maxDepth relParts with
            | true => simp [walkDirF, hlk, hfd, hdc] at hm
            | false =>
              simp only [walkDirF, hlk, hfd, hdc, Bool.false_eq_true, if_false] at hm
              rcases List.mem_append.mp hm with hm1 | hm2
              · -- a file of the current directory
                obtain ⟨p, hp, heq⟩ := List.mem_filterMap.mp hm1
                obtain ⟨b, hb, hbe⟩ := Option.map_eq_some'.mp heq
                rw [← hbe] at hDem
                rcases List.prefix_concat_iff.mp hDem with heqD | hDrel
                · -- the file sits exactly at D: the filter rejects it
                  have hne : should_process_file_checked
                      (joinUnder cfg.dir (relParts ++ [p.1])) cfg.dir cfg.extensions
                      cfg.excludePatterns cfg.includePatterns cfg.matchers cfg.allowIgnored
                      cfg.parsePdf ≠ .ok true := by
                    rw [← heqD, hai]
                    exact spf_checked_not_true_of_flagged (joinUnder cfg.dir D) cfg.dir
                      cfg.extensions cfg.excludePatterns cfg.includePatterns cfg.matchers
                      cfg.parsePdf mb m hmem hscope hflag
                  rw [handleFile_fst_none cfg relParts p.1 p.2 hne] at hb
                  cases hb
                · exact hrp hDrel
              · -- an emission of a kept child subtree
                obtain ⟨w, hw, hemw⟩ := walkSeq_ems_mem hm2
                obtain ⟨n, hn, hwn⟩ := List.mem_map.mp hw
                rw [← hwn] at hemw
                by_cases hDn : D <+: relParts ++ [n]
                · rcases List.prefix_concat_iff.mp hDn with heqD | hDrel
                  · -- the kept child is D itself: contradiction with the keep decision
                    have hk := filterDirs_keep cfg relParts _ kept hfd n
                      (List.mem_filter.mp hn).1
                    rw [← heqD, hai] at hk
                    exact keep_dir_not_kept_of_flagged (joinUnder cfg.dir D)
                      (joinRel D) cfg.excludePatterns cfg.includePatterns cfg.matchers
                      mb m hmem hscope hflag hk
                  · exact hrp hDrel
                · exact ih (relParts ++ [n]) hDn em hemw hDem

/-- C2 corrected: for every directory D strictly below the start directory
(a non-empty start-relative path) that lies within the scope of some gitignore
matcher and is flagged by it, with ignore rules enabled, no file at or below D
is ever emitted — even one that would match an include pattern.  (The claim
fails for D equal to the start directory itself, which `safe_walk` never
checks; see the counterexample.) -/
theorem C2_flagged_dir_pruned (cfg : Config) (fs : FS) (D : List String) (hD : D ≠ [])
    (mb : String) (m : GitignoreMatcher)
    (hmem : (mb, m) ∈ cfg.matchers)
    (hscope : matcherInScope (joinUnder cfg.dir D) (abspath mb) = .ok true)
    (hflag : m (joinUnder cfg.dir D) = .ok true)
    (hai : cfg.allowIgnored = false) :
    ∀ em ∈ (runWalkFull cfg fs).ems, ¬ D <+: em.relPath := by
  intro em hm
  rw [runWalkFull_ems] at hm
  exact walk_never_under_flagged_dir cfg fs D mb m hmem hscope hflag hai (fsFuel fs) []
    (fun hp => hD (List.prefix_nil.mp hp)) em hm

/-- Witness for C2 corrected: in the `proj/build` fixture the emitted file
`src/main.py` does not lie below the flagged directory `build`. -/
theorem C2_witness : ¬ (["build"] : List String) <+: ["src", "main.py"] :=
  C2_flagged_dir_pruned cfgA fsA ["build"] (by decide) "/proj" mGi
    (List.mem_singleton.mpr rfl) rfl rfl rfl
    ⟨["src", "main.py"], ["// src/main.py", "code", ""]⟩ (by decide)

/-- C2 fails as stated when the flagged directory is the start directory
itself: the matcher scoped to `/r` flags `/r/s`, ignore rules are enabled,
yet the file below `/r/s` is emitted, because `safe_walk` applies matchers
only to child directories, never to the start directory. -/
theorem C2_counterexample :
    cfg2cex.allowIgnored = false ∧
    cfg2cex.matchers = [("/r", mFlagStart)] ∧
    matcherInScope (abspath cfg2cex.dir) (abspath "/r") = .ok true ∧
    mFlagStart (abspath cfg2cex.dir) = .ok true ∧
    (runWalkFull cfg2cex fs2cex).ems = [⟨["a.txt"], ["// a.txt", "hi", ""]⟩] :=
  ⟨rfl, rfl, rfl, rfl, by decide⟩

/-- With a configured maximum depth, every emitted file path has at most `d`
start-relative components. -/
theorem walk_ems_le_depth (cfg : Config) (fs : FS) (d : Int) (hd : cfg.maxDepth = some d) :
    ∀ fuel relParts, ∀ em ∈ (walkDirF cfg fs fuel relParts).ems,
      (em.relPath.length : Int) ≤ d := by
  intro fuel
  induction fuel with
  | zero =>
    intro relParts em hm
    simp [walkDirF] at hm
  | succ fuel ih =>
    intro relParts em hm
    cases hlk : lookupNode fs relParts with
    | none => simp [walkDirF, hlk] at hm
    | some node =>
      cases node with
      | fileNode fd => simp [walkDirF, hlk] at hm
      | dirNode lerr =>
        cases lerr with
        | true => simp [walkDirF, hlk] at hm
        | false =>
          cases hfd : filterDirs cfg relParts (dirChildNames (childrenOf fs relParts)) with
          | error e => simp [walkDirF, hlk, hfd] at hm
          | ok kept =>
            cases hdc : depthCut cfg.maxDepth relParts with
            | true => simp [walkDirF, hlk, hfd, hdc] at hm
            | false =>
              simp only [walkDirF, hlk, hfd, hdc, Bool.false_eq_true, if_false] at hm
              have hlt : (relParts.length : Int) < d := by
                unfold depthCut at hdc
                rw [hd] at hdc
                simpa using hdc
              rcases List.mem_append.mp hm with hm1 | hm2
              · obtain ⟨p, hp, heq⟩ := List.mem_filterMap.mp hm1
                obtain ⟨b, hb, hbe⟩ := Option.map_eq_some'.mp heq
                rw [← hbe]
                simp only [List.length_append, List.length_cons, List.length_nil]
                push_cast
                omega
              · obtain ⟨w, hw, hemw⟩ := walkSeq_ems_mem hm2
                obtain ⟨n, hn, hwn⟩ := List.mem_map.mp hw
                rw [← hwn] at hemw
                exact ih (relParts ++ [n]) em hemw

/-- At or beyond the configured maximum depth a directory contributes no
emissions: `main` clears its pending child list and skips its files. -/
theorem walk_ems_nil_beyond_depth (cfg : Config) (fs : FS) (d : Int)
    (hd : cfg.maxDepth = some d) :
    ∀ fuel relParts, (relParts.length : Int) ≥ d →
      (walkDirF cfg fs fuel relParts).ems = [] := by
  intro fuel relParts hge
  cases fuel with
  | zero => simp [walkDirF]
  | succ fuel =>
    cases hlk : lookupNode fs relParts with
    | none => simp [walkDirF, hlk]
    | some node =>
      cases node with
      | fileNode fd => simp [walkDirF, hlk]
      | dirNode lerr =>
        cases lerr with
        | true => simp [walkDirF, hlk]
        | false =>
          cases hfd : filterDirs cfg relParts (dirChildNames (childrenOf fs relParts)) with
          | error e => simp [walkDirF, hlk, hfd]
          | ok kept =>
            have hdc : depthCut cfg.maxDepth relParts = true := by
              unfold depthCut
              rw [hd]
              exact decide_eq_true hge
            simp [walkDirF, hlk, hfd, hdc]

/-- C3: with a configured maximum depth `d`, no file whose path lies more than
`d` path-separators below the start directory is emitted (an emitted file with
`k` start-relative components sits `k - 1` separators below the start); and
descent is halted at the limit — a directory whose separator count reaches `d`
contributes no emissions, its pending child list being cleared. -/
theorem C3_depth_limit (cfg : Config) (fs : FS) (d : Int) (hd : cfg.maxDepth = some d) :
    (∀ em ∈ (runWalkFull cfg fs).ems, ¬ ((em.relPath.length : Int) - 1 > d)) ∧
    (∀ fuel relParts, (relParts.length : Int) ≥ d →
      (walkDirF cfg fs fuel relParts).ems = []) := by
  constructor
  · intro em hm
    rw [runWalkFull_ems] at hm
    have := walk_ems_le_depth cfg fs d hd (fsFuel fs) [] em hm
    omega
  · exact walk_ems_nil_beyond_depth cfg fs d hd

/-- Witness for C3 on the depth fixture: the emitted top-level file is within
the limit, and the directory at depth 1 contributes nothing. -/
theorem C3_witness :
    (¬ (((["top.txt"] : List String).length : Int) - 1 > 1)) ∧
    (walkDirF cfgD fsD 3 ["x"]).ems = [] :=
  ⟨(C3_depth_limit cfgD fsD 1 rfl).1 ⟨["top.txt"], ["// top.txt", "t", ""]⟩ (by decide),
   (C3_depth_limit cfgD fsD 1 rfl).2 3 ["x"] (by decide)⟩

/-- A directory whose listing raises yields nothing at all: `os.walk` ignores
the error (its default `onerror` is `None`), so the walk of that subtree is
empty, aborts nothing and logs nothing. -/
theorem walkDirF_err_dir (cfg : Config) (fs : FS) (D : List String)
    (h : lookupNode fs D = some (.dirNode true)) :
    ∀ fuel, walkDirF cfg fs fuel D = ⟨[], [], none⟩ := by
  intro fuel
  cases fuel with
  | zero => rfl
  | succ fuel => simp [walkDirF, h]

/-- While a directory `D` has a failing listing, no file strictly below `D`
is ever emitted, from wherever the walk starts outside `D`. -/
theorem walk_err_dir_none_strictly_under (cfg : Config) (fs : FS) (D : List String)
    (h : lookupNode fs D = some (.dirNode true)) :
    ∀ fuel relParts, (relParts = D ∨ ¬ D <+: relParts) →
      ∀ em ∈ (walkDirF cfg fs fuel relParts).ems, ¬ (D <+: em.relPath ∧ D ≠ em.relPath) := by
  intro fuel
  induction fuel with
  | zero =>
    intro relParts _ em hm
    simp [walkDirF] at hm
  | succ fuel ih =>
    intro relParts hside em hm hbad
    obtain ⟨hDem, hDne⟩ := hbad
    cases hside with
    | inl heq =>
      rw [heq, walkDirF_err_dir cfg fs D h (fuel + 1)] at hm
      simp at hm
    | inr hrp =>
      cases hlk : lookupNode fs relParts with
      | none => simp [walkDirF, hlk] at hm
      | some node =>
        cases node with
        | fileNode fd => simp [walkDirF, hlk] at hm
        | dirNode lerr =>
          cases lerr with
          | true => simp [walkDirF, hlk] at hm
          | false =>
            cases hfd : filterDirs cfg relParts (dirChildNames (childrenOf fs relParts)) with
            | error e => simp [walkDirF, hlk, hfd] at hm
            | ok kept =>
              cases hdc : depthCut cfg.maxDepth relParts with
              | true => simp [walkDirF, hlk, hfd, hdc] at hm
              | false =>
                simp only [walkDirF, hlk, hfd, hdc, Bool.false_eq_true, if_false] at hm
                rcases List.mem_append.mp hm with hm1 | hm2
                · obtain ⟨p, hp, heq⟩ := List.mem_filterMap.mp hm1
                  obtain ⟨b, hb, hbe⟩ := Option.map_eq_some'.mp heq
                  rw [← hbe] at hDem hDne
                  rcases List.prefix_concat_iff.mp hDem with heqD | hDrel
                  · exact hDne heqD
                  · exact hrp hDrel
                · obtain ⟨w, hw, hemw⟩ := walkSeq_ems_mem hm2
                  obtain ⟨n, hn, hwn⟩ := List.mem_map.mp hw
                  rw [← hwn] at hemw
                  have hside2 : relParts ++ [n] = D ∨ ¬ D <+: relParts ++ [n] := by
                    by_cases hDn : D <+: relParts ++ [n]
                    · rcases List.prefix_concat_iff.mp hDn with heqD | hDrel
                      · exact Or.inl heqD.symm
                      · exact absurd hDrel hrp
                    · exact Or.inr hDn
                  exact ih (relParts ++ [n]) hside2 em hemw ⟨hDem, hDne⟩

/-- C6 corrected: a filesystem error while listing a directory's entries is
silently swallowed by `os.walk` (whose `onerror` is left at `None`), not
logged: the directory yields zero entries — its whole subtree contributes no
emissions, no warnings and no abort — and traversal of every other directory
continues; such an error is never fatal to the run.  (Only exceptions raised
by the directory-filtering logic itself reach the `except` clause of
`safe_walk`, which does log and then ends the walk.) -/
theorem C6_listing_error_silent_skip (cfg : Config) (fs : FS) (D : List String)
    (h : lookupNode fs D = some (.dirNode true)) :
    (∀ fuel, walkDirF cfg fs fuel D = ⟨[], [], none⟩) ∧
    (∀ em ∈ (runWalkFull cfg fs).ems, ¬ (D <+: em.relPath ∧ D ≠ em.relPath)) := by
  refine ⟨walkDirF_err_dir cfg fs D h, ?_⟩
  intro em hm
  rw [runWalkFull_ems] at hm
  refine walk_err_dir_none_strictly_under cfg fs D h (fsFuel fs) [] ?_ em hm
  by_cases hD : D = []
  · exact Or.inl hD.symm
  · exact Or.inr (fun hp => hD (List.prefix_nil.mp hp))

/-- Witness for C6 corrected on the fixture with the failing directory `b`. -/
theorem C6_witness :
    walkDirF cfgE fsF 3 ["b"] = ⟨[], [], none⟩ ∧
    ¬ ((["b"] : List String) <+: ["a.txt"] ∧ ["b"] ≠ ["a.txt"]) :=
  ⟨(C6_listing_error_silent_skip cfgE fsF ["b"] rfl).1 3,
   (C6_listing_error_silent_skip cfgE fsF ["b"] rfl).2
     ⟨["a.txt"], ["// a.txt", "hi", ""]⟩ (by decide)⟩

/-- C6 fails as stated: listing the directory `b` raises, yet the run logs no
warning at all — the error is ignored, not "caught and logged" — while the
sibling file is still emitted and the run completes without abort. -/
theorem C6_counterexample :
    lookupNode fsF ["b"] = some (.dirNode true) ∧
    runWalkFull cfgE fsF = ⟨[⟨["a.txt"], ["// a.txt", "hi", ""]⟩], [], none⟩ :=
  ⟨rfl, by decide⟩

/-- Specification of the upward loop: on the reversed remaining path it
returns the longest prefix of the original path whose marker probe succeeds,
or `none` when no prefix has the marker. -/
theorem fgrAux_spec (ex : List String → Bool) :
    ∀ rev : List String,
      (∀ r, fgrAux ex rev = some r →
        r <+: rev.reverse ∧ ex (r ++ [".git"]) = true ∧
          ∀ q, q <+: rev.reverse → ex (q ++ [".git"]) = true → q.length ≤ r.length) ∧
      (fgrAux ex rev = none → ∀ q, q <+: rev.reverse → ex (q ++ [".git"]) = false) := by
  intro rev
  induction rev with
  | nil =>
    constructor
    · intro r hr
      simp only [fgrAux] at hr
      cases hx : ex [".git"] with
      | true =>
        rw [hx] at hr
        simp only [if_true] at hr
        cases hr
        refine ⟨List.prefix_refl _, hx, ?_⟩
        intro q hq _
        have hq0 : q = [] := List.prefix_nil.mp (by simpa using hq)
        simp [hq0]
      | false =>
        rw [hx] at hr
        simp at hr
    · intro hn q hq
      simp only [fgrAux] at hn
      have hq0 : q = [] := List.prefix_nil.mp (by simpa using hq)
      subst hq0
      cases hx : ex [".git"] with
      | true => rw [hx] at hn; simp at hn
      | false => exact hx
  | cons c rest ih =>
    have hrev : (c :: rest).reverse = rest.reverse ++ [c] := by simp
    constructor
    · intro r hr
      simp only [fgrAux] at hr
      cases hx : ex ((c :: rest).reverse ++ [".git"]) with
      | true =>
        rw [hx] at hr
        simp only [if_true] at hr
        cases hr
        refine ⟨List.prefix_refl _, hx, ?_⟩
        intro q hq _
        exact hq.length_le
      | false =>
        rw [hx] at hr
        simp only [Bool.false_eq_true, if_false] at hr
        obtain ⟨hpre, hmk, hmax⟩ := (ih.1 r hr)
        refine ⟨hpre.trans (by rw [hrev]; exact List.prefix_append _ _), hmk, ?_⟩
        intro q hq hqmk
        rw [hrev] at hq
        rcases List.prefix_concat_iff.mp hq with heq | hq2
        · exfalso
          rw [heq, ← hrev] at hqmk
          rw [hqmk] at hx
          cases hx
        · exact hmax q hq2 hqmk
    · intro hn q hq
      simp only [fgrAux] at hn
      cases hx : ex ((c :: rest).reverse ++ [".git"]) with
      | true => rw [hx] at hn; simp at hn
      | false =>
        rw [hx] at hn
        simp only [Bool.false_eq_true, if_false] at hn
        rw [hrev] at hq
        rcases List.prefix_concat_iff.mp hq with heq | hq2
        · rw [heq, ← hrev]
          exact hx
        · exact ih.2 hn q hq2

/-- C8: for every start path with an ancestor (itself included) whose marker
probe succeeds, the root locator returns the nearest such ancestor — the
longest prefix of the start path carrying the marker; with no such ancestor
it returns `none`, and then no prefix carries the marker. -/
theorem C8_root_locator (ex : List String → Bool) (p : List String) :
    (∀ r, find_git_root ex p = some r →
      r <+: p ∧ ex (r ++ [".git"]) = true ∧
        ∀ q, q <+: p → ex (q ++ [".git"]) = true → q.length ≤ r.length) ∧
    (find_git_root ex p = none → ∀ q, q <+: p → ex (q ++ [".git"]) = false) := by
  have h := fgrAux_spec ex p.reverse
  rw [List.reverse_reverse] at h
  exact h

/-- Witness for C8: markers at `/` and `/a`, start `/a/b`; the locator finds
`/a`, the nearest marked ancestor, which the root `/` does not beat. -/
theorem C8_witness :
    (["a"] : List String) <+: ["a", "b"] ∧ exJ (["a"] ++ [".git"]) = true ∧
      ([] : List String).length ≤ (["a"] : List String).length := by
  have h := (C8_root_locator exJ ["a", "b"]).1 ["a"] (by decide)
  exact ⟨h.1, h.2.1, h.2.2 [] (by decide) (by decide)⟩

/-- Totality of the code-point string order. -/
theorem charListLe_total : ∀ a b : List Char, charListLe a b = true ∨ charListLe b a = true := by
  intro a
  induction a with
  | nil => intro b; exact Or.inl rfl
  | cons x xs ih =>
    intro b
    cases b with
    | nil => exact Or.inr rfl
    | cons y ys =>
      rcases lt_trichotomy x y with hxy | hxy | hxy
      · left; simp [charListLe, hxy]
      · subst hxy
        rcases ih ys with h | h
        · left; simp [charListLe, h]
        · right; simp [charListLe, h]
      · right; simp [charListLe, hxy]

/-- Transitivity of the code-point string order. -/
theorem charListLe_trans : ∀ a b c : List Char,
    charListLe a b = true → charListLe b c = true → charListLe a c = true := by
  intro a
  induction a with
  | nil => intro b c _ _; rfl
  | cons x xs ih =>
    intro b c h1 h2
    cases b with
    | nil => simp [charListLe] at h1
    | cons y ys =>
      cases c with
      | nil => simp [charListLe] at h2
      | cons z zs =>
        simp only [charListLe] at h1 h2 ⊢
        rcases lt_trichotomy x y with hxy | hxy | hxy
        · rcases lt_trichotomy y z with hyz | hyz | hyz
          · simp [lt_trans hxy hyz]
          · subst hyz; simp [hxy]
          · simp [lt_asymm hyz, hyz] at h2
        · subst hxy
          simp at h1
          rcases lt_trichotomy x z with hxz | hxz | hxz
          · simp [hxz]
          · subst hxz
            simp at h2 ⊢
            exact ih ys zs h1 h2
          · simp [lt_asymm hxz, hxz] at h2
        · simp [lt_asymm hxy, hxy] at h1

/-- Antisymmetry of the code-point string order. -/
theorem charListLe_antisymm : ∀ a b : List Char,
    charListLe a b = true → charListLe b a = true → a = b := by
  intro a
  induction a with
  | nil =>
    intro b h1 h2
    cases b with
    | nil => rfl
    | cons y ys => simp [charListLe] at h2
  | cons x xs ih =>
    intro b h1 h2
    cases b with
    | nil => simp [charListLe] at h1
    | cons y ys =>
      simp only [charListLe] at h1 h2
      rcases lt_trichotomy x y with hxy | hxy | hxy
      · simp [lt_asymm hxy, hxy] at h2
      · subst hxy
        simp at h1 h2
        rw [ih ys h1 h2]
      · simp [lt_asymm hxy, hxy] at h1

instance : IsTotal (String × FileData) fileLe :=
  ⟨fun a b => charListLe_total a.1.data b.1.data⟩

instance : IsTrans (String × FileData) fileLe :=
  ⟨fun a b c => charListLe_trans a.1.data b.1.data c.1.data⟩

/-- C9: within each visited directory the accepted files are emitted in
ascending code-point order of their filenames, and the emission list does not
depend on the order in which the filesystem listed the directory (any
permutation of a duplicate-free listing produces the same output). -/
theorem C9_files_sorted_order_independent (cfg : Config) (relParts : List String)
    (l l2 : List (String × FileData)) (hp : l.Perm l2) (hnd : (l.map Prod.fst).Nodup) :
    (processFilesEms cfg relParts l).Pairwise
      (fun a b => charListLe (a.relPath.getLastD "").data (b.relPath.getLastD "").data = true) ∧
    processFilesEms cfg relParts l = processFilesEms cfg relParts l2 := by
  constructor
  · have hs : (sortFiles l).Pairwise fileLe := List.sorted_insertionSort fileLe l
    unfold processFilesEms
    rw [List.pairwise_filterMap]
    refine hs.imp ?_
    intro p q hpq a ha b hb
    cases hop : (handleFile cfg relParts p.1 p.2).1 with
    | none => rw [hop] at ha; simp at ha
    | some blkp =>
      cases hoq : (handleFile cfg relParts q.1 q.2).1 with
      | none => rw [hoq] at hb; simp at hb
      | some blkq =>
        rw [hop] at ha
        rw [hoq] at hb
        simp only [Option.map_some', Option.mem_def, Option.some.injEq] at ha hb
        rw [← ha, ← hb]
        simpa [List.getLastD_concat] using hpq
  · have hout : sortFiles l = sortFiles l2 := by
      have hperm : (sortFiles l).Perm (sortFiles l2) :=
        (List.perm_insertionSort fileLe l).trans
          (hp.trans (List.perm_insertionSort fileLe l2).symm)
      have hnd1 : ((sortFiles l).map Prod.fst).Nodup :=
        ((List.perm_insertionSort fileLe l).map Prod.fst).symm.nodup hnd
      have hnd2 : ((sortFiles l2).map Prod.fst).Nodup :=
        ((List.perm_insertionSort fileLe l2).map Prod.fst).symm.nodup
          ((hp.map Prod.fst).nodup hnd)
      have hstrict1 : (sortFiles l).Pairwise (fun p q => fileLe p q ∧ p.1 ≠ q.1) :=
        (List.sorted_insertionSort fileLe l).and (List.pairwise_map.mp hnd1)
      have hstrict2 : (sortFiles l2).Pairwise (fun p q => fileLe p q ∧ p.1 ≠ q.1) :=
        (List.sorted_insertionSort fileLe l2).and (List.pairwise_map.mp hnd2)
      haveI : IsAntisymm (String × FileData) (fun p q => fileLe p q ∧ p.1 ≠ q.1) := by
        refine ⟨fun a b h1 h2 => absurd ?_ h1.2⟩
        exact String.ext (charListLe_antisymm a.1.data b.1.data h1.1 h2.1)
      exact List.eq_of_perm_of_sorted hperm hstrict1 hstrict2
    unfold processFilesEms
    rw [hout]

/-- Witness for C9: two listing orders of the same directory yield the same
emissions. -/
theorem C9_witness :
    processFilesEms cfgE [] [("b.txt", fdText "b"), ("a.txt", fdText "a")] =
      processFilesEms cfgE [] [("a.txt", fdText "a"), ("b.txt", fdText "b")] :=
  (C9_files_sorted_order_independent cfgE []
    [("b.txt", fdText "b"), ("a.txt", fdText "a")]
    [("a.txt", fdText "a"), ("b.txt", fdText "b")] (by decide) (by decide)).2
